import Mathlib

/-!
A shallow embedding of the core of `sharepoint2s3.py` (class `SharePointToS3`):
the path mapper `_get_relative_path`, the prefix normalization performed in
`__init__`, and the recursive `copy_folder` traversal with its per-file and
per-folder exception handling.

Strings are modelled as lists of characters.  The external collaborators
(SharePoint listing and download, S3 `put_object`, the per-file `logger.error`
call inside the `except` handler) are modelled by scenario data attached to the
folder tree: each effectful step carries a flag saying whether it succeeds or
raises, so the traversal can be analysed under every behaviour of the
collaborators.  Exceptions are modelled with `Except`: `.error` is a Python
exception in flight, carrying the local counters and the S3 state at the point
where it escapes to the enclosing handler.
-/

namespace SP2S3

/-- Strings as lists of characters. -/
abbrev Str := List Char

/-- Python `s.lstrip('/')`: remove every leading `'/'`. -/
def lstripSlashes (s : Str) : Str := s.dropWhile (fun c => c == '/')

/-- Python `s.rstrip('/')`: remove every trailing `'/'`. -/
def rstripSlashes (s : Str) : Str := (s.reverse.dropWhile (fun c => c == '/')).reverse

/-- Python `self.s3_prefix = s3_prefix.rstrip('/') + '/' if s3_prefix else ""`
(`__init__`, line 47): the stored, normalized key prefix. -/
def prefNorm (p : Str) : Str := if p = [] then [] else rstripSlashes p ++ ['/']

/-- Configuration fixed at `__init__` time: the site path
(`urlparse(self.sharepoint_url).path`) and the raw `s3_prefix` argument. -/
structure Config where
  sitePath : Str
  rawPref : Str
deriving DecidableEq, Repr

/-- Method `_get_relative_path` (lines 85-98): if the server-relative path starts with
the site path, drop that prefix and then strip leading slashes; otherwise just
strip leading slashes. -/
def getRelativePath (sitePath p : Str) : Str :=
  if sitePath.isPrefixOf p then lstripSlashes (p.drop sitePath.length)
  else lstripSlashes p

/-- The destination-key construction `f"{self.s3_prefix}{relative_path}"`
(line 125), where `self.s3_prefix` is the normalized prefix from `__init__`. -/
def destKey (rawPref rel : Str) : Str := prefNorm rawPref ++ rel

/-- The key computed for a file with the given `ServerRelativeUrl`
(lines 124-125). -/
def s3Key (cfg : Config) (url : Str) : Str :=
  destKey cfg.rawPref (getRelativePath cfg.sitePath url)

/-- Result of `File.open_binary`: the file's bytes, or a raised exception. -/
inductive FetchResult : Type where
  | ok (content : List Nat)
  | raise
deriving DecidableEq, Repr

/-- One file listed in a folder, with the scenario of its effectful steps:
`fetch` is the outcome of `File.open_binary`, `putRaises` says whether
`s3_client.put_object` raises, and `logErrorRaises` says whether the
`logger.error` call inside the per-file `except` handler itself raises. -/
structure FileItem where
  serverRelativeUrl : Str
  fetch : FetchResult
  putRaises : Bool
  logErrorRaises : Bool
deriving DecidableEq, Repr

/-- The destination side: `store` is the bucket content (most recent successful
put first), `attempts` records every `put_object` call made, in order,
successful or not. -/
structure S3State where
  store : List (Str × List Nat)
  attempts : List (Str × List Nat)
deriving DecidableEq, Repr

/-- Reading back an object: the most recent successful put for a key wins. -/
def lookupStore (store : List (Str × List Nat)) (k : Str) : Option (List Nat) :=
  match store with
  | [] => none
  | (k', v) :: rest => if k' = k then some v else lookupStore rest k

mutual
/-- A source folder as `copy_folder` observes it: `resolveOk` is whether the
`get_folder_by_server_relative_url` / `execute_query` step succeeds
(lines 114-119); `files` and `subs` are its listed children; `filesTrunc` /
`subsTrunc`, when `some n`, mean the corresponding iteration raises after
yielding `n` items. -/
inductive SPFolder : Type where
  | mk (resolveOk : Bool) (files : List FileItem) (filesTrunc : Option Nat)
      (subs : SubForest) (subsTrunc : Option Nat)
/-- The listed subfolders: each carries its `Name` property and its subtree. -/
inductive SubForest : Type where
  | nil
  | cons (name : Str) (folder : SPFolder) (rest : SubForest)
end

/-- The names skipped by the subfolder loop (line 143):
`['.', '..', 'Forms']`. -/
def skipNames : List Str := [".".toList, "..".toList, "Forms".toList]

/-- Whether the per-file processing of this item fails at the fetch or the
write step. -/
def fileFails (fi : FileItem) : Bool :=
  match fi.fetch with
  | .raise => true
  | .ok _ => fi.putRaises

/-- Number of files of a listing whose fetch/write fails. -/
def failCount (files : List FileItem) : Nat := files.countP fileFails

/-- Componentwise addition of `(success_count, error_count)` pairs
(lines 146-148: `success_count += sub_success; error_count += sub_error`). -/
def merge (a b : Nat × Nat) : Nat × Nat := (a.1 + b.1, a.2 + b.2)

/-- The body of the inner `try` of the file loop together with its `except`
handler (lines 122-140).  `.ok (true, s3)` is the success path,
`.ok (false, s3)` is a caught failure whose `logger.error` succeeded (the
caller then adds one error), and `.error s3` means the handler's own
`logger.error` raised, so the exception escapes to the outer handler before
`error_count` is incremented. -/
def processFile (cfg : Config) (fi : FileItem) (s3 : S3State) :
    Except S3State (Bool × S3State) :=
  let key := s3Key cfg fi.serverRelativeUrl
  match fi.fetch with
  | .raise => if fi.logErrorRaises then .error s3 else .ok (false, s3)
  | .ok content =>
      let s3a : S3State := { s3 with attempts := s3.attempts ++ [(key, content)] }
      if fi.putRaises then
        if fi.logErrorRaises then .error s3a else .ok (false, s3a)
      else .ok (true, { s3a with store := (key, content) :: s3a.store })

/-- The file loop (lines 121-140), threading `success_count`, `error_count`
and the S3 state.  A `.error` result carries the counters and S3 state at the
moment an exception escapes to the outer handler (either the iterator raising,
modelled by `t = some 0`, or a per-file handler raising). -/
def processFiles (cfg : Config) (files : List FileItem) (t : Option Nat)
    (s e : Nat) (s3 : S3State) : Except (Nat × Nat × S3State) (Nat × Nat × S3State) :=
  if t = some 0 then .error (s, e, s3)
  else
    match files with
    | [] => .ok (s, e, s3)
    | fi :: rest =>
        match processFile cfg fi s3 with
        | .error s3' => .error (s, e, s3')
        | .ok (true, s3') => processFiles cfg rest (t.map (· - 1)) (s + 1) e s3'
        | .ok (false, s3') => processFiles cfg rest (t.map (· - 1)) s (e + 1) s3'

/-- The outer `except Exception` handler of `copy_folder` (lines 152-154):
a normal return passes through; an exception in flight is absorbed, adding one
to the error count accumulated so far. -/
def absorb : Except (Nat × Nat × S3State) (Nat × Nat × S3State) → (Nat × Nat) × S3State
  | .ok (s, e, s3) => ((s, e), s3)
  | .error (s, e, s3) => ((s, e + 1), s3)

mutual
/-- The body of the outer `try` of `copy_folder` (lines 113-150): resolve the
folder (raising if that fails, with both counters still `0`), run the file
loop, then the subfolder loop. -/
def copyFolderBody (cfg : Config) : SPFolder → S3State →
    Except (Nat × Nat × S3State) (Nat × Nat × S3State)
  | .mk false _ _ _ _, s3 => .error (0, 0, s3)
  | .mk true files ft subs st, s3 =>
      match processFiles cfg files ft 0 0 s3 with
      | .error r => .error r
      | .ok (s, e, s3') => processSubs cfg subs st s e s3'

/-- The subfolder loop (lines 142-148): skip names in `skipNames`, otherwise
recurse via `copy_folder` (whose own handler absorbs every exception, hence
`absorb`) and merge the returned counts into the running totals. -/
def processSubs (cfg : Config) : SubForest → Option Nat → Nat → Nat → S3State →
    Except (Nat × Nat × S3State) (Nat × Nat × S3State)
  | _, some 0, s, e, s3 => .error (s, e, s3)
  | .nil, _, s, e, s3 => .ok (s, e, s3)
  | .cons name sub rest, t, s, e, s3 =>
      if name ∈ skipNames then processSubs cfg rest (t.map (· - 1)) s e s3
      else
        match absorb (copyFolderBody cfg sub s3) with
        | ((s', e'), s3') =>
            let m := merge (s, e) (s', e')
            processSubs cfg rest (t.map (· - 1)) m.1 m.2 s3'
end

/-- Method `copy_folder` (lines 100-154): the body wrapped in the outer handler.
It returns the `(success_count, error_count)` pair and the final S3 state. -/
def copyFolder (cfg : Config) (f : SPFolder) (s3 : S3State) : (Nat × Nat) × S3State :=
  absorb (copyFolderBody cfg f s3)

/-- The name carried by the head entry of a subfolder listing. -/
def SubForest.entryName : Str → SPFolder → SubForest → Str := fun n _ _ => n

/-- Keep only the subfolder entries whose name is not skipped. -/
def keepSubs : SubForest → SubForest
  | .nil => .nil
  | .cons name sub rest =>
      if name ∈ skipNames then keepSubs rest
      else .cons name sub (keepSubs rest)

/-- Folding `copy_folder` over a subfolder listing, merging counts — the
reference shape of the subfolder loop when no exception interrupts it. -/
def foldSubs (cfg : Config) : SubForest → (Nat × Nat) × S3State → (Nat × Nat) × S3State
  | .nil, acc => acc
  | .cons _ sub rest, ((s, e), s3) =>
      match copyFolder cfg sub s3 with
      | ((s', e'), s3') => foldSubs cfg rest (merge (s, e) (s', e'), s3')

/-- The S3 state a per-file step ends in, whether or not it raised. -/
def fileFinalS3 : Except S3State (Bool × S3State) → S3State
  | .error s3 => s3
  | .ok (_, s3) => s3

/-- Prefix of a subfolder listing: the first `n` entries. -/
def takeSubs : Nat → SubForest → SubForest
  | 0, _ => .nil
  | _, .nil => .nil
  | n + 1, .cons name sub rest => .cons name sub (takeSubs n rest)

/-- Number of entries of a subfolder listing. -/
def lenSubs : SubForest → Nat
  | .nil => 0
  | .cons _ _ rest => lenSubs rest + 1

/-- An empty destination: no objects, no attempted puts. -/
def emptyS3 : S3State := ⟨[], []⟩

/-- A sample configuration used by concrete witnesses. -/
def cfg0 : Config := ⟨"/sites/team".toList, "backup".toList⟩

/-- A file whose fetch and write both succeed. -/
def fileOk (url : Str) : FileItem := ⟨url, .ok [1, 2], false, false⟩

/-- A file whose download (`File.open_binary`) raises. -/
def fileFetchFail (url : Str) : FileItem := ⟨url, .raise, false, false⟩

/-- A file whose `put_object` raises. -/
def filePutFail (url : Str) : FileItem := ⟨url, .ok [3], true, false⟩

/-- A file whose fetch raises and whose error-logging call also raises. -/
def fileLogFail (url : Str) : FileItem := ⟨url, .raise, false, true⟩

/-- A listing with a reserved `Forms` entry followed by an ordinary entry. -/
def formsSubs : SubForest :=
  .cons "Forms".toList (.mk true [fileOk "/x".toList] none .nil none)
    (.cons "sub".toList (.mk true [] none .nil none) .nil)

/-- A listing with a single ordinary subfolder entry. -/
def oneSub : SubForest := .cons "s".toList (.mk true [] none .nil none) .nil

/-- Dropping leading slashes splits a string into a run of slashes followed by
the remainder. -/
theorem lstripSlashes_decomp (s : Str) :
    ∃ k, s = List.replicate k '/' ++ lstripSlashes s := by
  refine ⟨(s.takeWhile (fun c => c == '/')).length, ?_⟩
  have h1 : s.takeWhile (fun c => c == '/')
      = List.replicate (s.takeWhile (fun c => c == '/')).length '/' := by
    apply List.eq_replicate_of_mem
    intro b hb
    simpa using List.mem_takeWhile_imp hb
  conv_lhs => rw [← List.takeWhile_append_dropWhile (fun c => c == '/') s]
  rw [← h1]
  rfl

/-- The remainder after `lstrip('/')` never starts with a slash. -/
theorem head?_lstripSlashes (s : Str) : (lstripSlashes s).head? ≠ some '/' := by
  have h := List.head?_dropWhile_not (fun c => c == '/') s
  intro hc
  rw [show lstripSlashes s = s.dropWhile (fun c => c == '/') from rfl] at hc
  rw [hc] at h
  simp at h

/-- Python `rstrip('/')` never ends with a slash. -/
theorem getLast?_rstripSlashes (s : Str) : (rstripSlashes s).getLast? ≠ some '/' := by
  unfold rstripSlashes
  rw [List.getLast?_reverse]
  exact head?_lstripSlashes s.reverse

/-- The stored prefix is empty, or is the right-stripped prefix followed by
exactly one slash. -/
theorem prefNorm_shape (p : Str) :
    (p = [] ∧ prefNorm p = []) ∨
    (p ≠ [] ∧ prefNorm p = rstripSlashes p ++ ['/'] ∧
      (rstripSlashes p).getLast? ≠ some '/') := by
  by_cases hp : p = []
  · exact Or.inl ⟨hp, by simp [prefNorm, hp]⟩
  · exact Or.inr ⟨hp, by simp [prefNorm, hp], getLast?_rstripSlashes p⟩

/-- C1: the mapping from a source file's server-relative path to its
destination key (strip the site prefix and leading separators, then prepend
the normalized prefix) is injective: two source files at different relative
paths get different keys. -/
theorem destination_key_injective (cfg : Config) (u1 u2 : Str)
    (h : getRelativePath cfg.sitePath u1 ≠ getRelativePath cfg.sitePath u2) :
    s3Key cfg u1 ≠ s3Key cfg u2 := by
  intro hk
  unfold s3Key destKey at hk
  exact h (List.append_cancel_left hk)

theorem destination_key_injective_witness :
    getRelativePath cfg0.sitePath "/sites/team/a.txt".toList
      ≠ getRelativePath cfg0.sitePath "/sites/team/b.txt".toList ∧
    s3Key cfg0 "/sites/team/a.txt".toList ≠ s3Key cfg0 "/sites/team/b.txt".toList :=
  ⟨by decide, destination_key_injective cfg0 _ _ (by decide)⟩

/-- C4: if the candidate path starts with the root prefix,
`_get_relative_path` drops exactly the root-length prefix and then exactly the
leading separators of the remainder, never more; otherwise it returns the
candidate with only its leading separators removed.  It is total by
construction. -/
theorem get_relative_path_spec (root p : Str) :
    (root.isPrefixOf p = true →
      ∃ rest k, p = root ++ rest ∧
        getRelativePath root p = lstripSlashes rest ∧
        rest = List.replicate k '/' ++ getRelativePath root p ∧
        (getRelativePath root p).head? ≠ some '/') ∧
    (root.isPrefixOf p = false →
      ∃ k, p = List.replicate k '/' ++ getRelativePath root p ∧
        (getRelativePath root p).head? ≠ some '/') := by
  constructor
  · intro h
    obtain ⟨rest, hrest⟩ : root <+: p := by
      rw [← List.isPrefixOf_iff_prefix]
      exact h
    have hdrop : p.drop root.length = rest := by
      rw [← hrest]
      exact List.drop_left root rest
    have hget : getRelativePath root p = lstripSlashes rest := by
      simp [getRelativePath, h, hdrop]
    obtain ⟨k, hk⟩ := lstripSlashes_decomp rest
    exact ⟨rest, k, hrest.symm, hget, by rw [hget]; exact hk,
      by rw [hget]; exact head?_lstripSlashes rest⟩
  · intro h
    have hget : getRelativePath root p = lstripSlashes p := by
      simp [getRelativePath, h]
    obtain ⟨k, hk⟩ := lstripSlashes_decomp p
    exact ⟨k, by rw [hget]; exact hk, by rw [hget]; exact head?_lstripSlashes p⟩

theorem get_relative_path_spec_witness :
    (∃ rest k, ("/s//a.txt".toList : Str) = "/s".toList ++ rest ∧
      getRelativePath "/s".toList "/s//a.txt".toList = lstripSlashes rest ∧
      rest = List.replicate k '/' ++ getRelativePath "/s".toList "/s//a.txt".toList ∧
      (getRelativePath "/s".toList "/s//a.txt".toList).head? ≠ some '/') ∧
    (∃ k, ("//b.txt".toList : Str)
        = List.replicate k '/' ++ getRelativePath "/s".toList "//b.txt".toList ∧
      (getRelativePath "/s".toList "//b.txt".toList).head? ≠ some '/') :=
  ⟨(get_relative_path_spec "/s".toList "/s//a.txt".toList).1 (by decide),
   (get_relative_path_spec "/s".toList "//b.txt".toList).2 (by decide)⟩

/-- C5: for every configured prefix and every relative path (which, as
produced by the path mapper, never starts with a separator), the destination
key is the normalized prefix — empty, or ending in exactly one separator —
concatenated with the relative path, with exactly one separator and no doubled
separator at the junction. -/
theorem destination_key_junction (p rel : Str) (h : rel.head? ≠ some '/') :
    destKey p rel = prefNorm p ++ rel ∧
    ((p = [] ∧ prefNorm p = [] ∧ destKey p rel = rel) ∨
     (p ≠ [] ∧ ∃ q, prefNorm p = q ++ ['/'] ∧ q.getLast? ≠ some '/' ∧
       destKey p rel = q ++ '/' :: rel ∧ rel.head? ≠ some '/')) := by
  refine ⟨rfl, ?_⟩
  rcases prefNorm_shape p with ⟨hp, hn⟩ | ⟨hp, hn, hl⟩
  · exact Or.inl ⟨hp, hn, by unfold destKey; rw [hn]; rfl⟩
  · refine Or.inr ⟨hp, rstripSlashes p, hn, hl, ?_, h⟩
    unfold destKey
    rw [hn]
    simp

theorem destination_key_junction_witness :
    ∃ q, prefNorm "backup//".toList = q ++ ['/'] ∧ q.getLast? ≠ some '/' ∧
      destKey "backup//".toList "docs/a.txt".toList = q ++ '/' :: "docs/a.txt".toList ∧
      ("docs/a.txt".toList : Str).head? ≠ some '/' := by
  have h := (destination_key_junction "backup//".toList "docs/a.txt".toList (by decide)).2
  rcases h with ⟨hp, _⟩ | ⟨_, hq⟩
  · exact absurd hp (by decide)
  · exact hq

/-- C7: the merging of two `(success_count, error_count)` pairs is
componentwise addition; it is associative, commutative, and `(0, 0)` is its
identity. -/
theorem merge_assoc_comm_id :
    (∀ a b c : Nat × Nat, merge (merge a b) c = merge a (merge b c)) ∧
    (∀ a b : Nat × Nat, merge a b = merge b a) ∧
    (∀ x : Nat × Nat, merge (0, 0) x = x) := by
  refine ⟨?_, ?_, ?_⟩
  · intro a b c
    simp [merge, Nat.add_assoc]
  · intro a b
    simp [merge, Nat.add_comm]
  · intro x
    simp [merge]

/-- A per-file step whose handler logging succeeds reports success exactly when
neither the fetch nor the write raised. -/
theorem processFile_of_logOk (cfg : Config) (fi : FileItem) (s3 : S3State)
    (h : fi.logErrorRaises = false) :
    ∃ s3', processFile cfg fi s3 = .ok (!(fileFails fi), s3') := by
  cases hf : fi.fetch with
  | raise => exact ⟨s3, by simp [processFile, fileFails, hf, h]⟩
  | ok c =>
      cases hp : fi.putRaises with
      | true =>
          exact ⟨⟨s3.store, s3.attempts ++ [(s3Key cfg fi.serverRelativeUrl, c)]⟩,
            by simp [processFile, fileFails, hf, hp, h]⟩
      | false =>
          exact ⟨⟨(s3Key cfg fi.serverRelativeUrl, c) :: s3.store,
              s3.attempts ++ [(s3Key cfg fi.serverRelativeUrl, c)]⟩,
            by simp [processFile, fileFails, hf, hp, h]⟩

/-- A per-file step that fails and whose handler logging itself raises escapes
as an exception. -/
theorem processFile_error_of (cfg : Config) (fi : FileItem) (s3 : S3State)
    (hfail : fileFails fi = true) (hlog : fi.logErrorRaises = true) :
    ∃ s3', processFile cfg fi s3 = .error s3' := by
  cases hf : fi.fetch with
  | raise => exact ⟨s3, by simp [processFile, hf, hlog]⟩
  | ok c =>
      have hp : fi.putRaises = true := by
        unfold fileFails at hfail
        rw [hf] at hfail
        exact hfail
      exact ⟨⟨s3.store, s3.attempts ++ [(s3Key cfg fi.serverRelativeUrl, c)]⟩,
        by simp [processFile, hf, hp, hlog]⟩

/-- Succeeding and failing files together exhaust a listing. -/
theorem okCount_add_failCount (files : List FileItem) :
    files.countP (fun fi => !(fileFails fi)) + failCount files = files.length := by
  induction files with
  | nil => rfl
  | cons fi rest ih =>
      simp only [failCount, List.countP_cons, List.length_cons] at ih ⊢
      cases hfi : fileFails fi <;> simp [hfi] <;> omega

/-- The file loop on an exhausted listing. -/
theorem processFiles_nil (cfg : Config) (s e : Nat) (s3 : S3State) :
    processFiles cfg [] none s e s3 = .ok (s, e, s3) := rfl

/-- One iteration of the file loop: the per-file handler itself raised, so the
exception escapes with the counts accumulated so far. -/
theorem processFiles_cons_err (cfg : Config) (fi : FileItem) (rest : List FileItem)
    (s e : Nat) (s3 s3x : S3State) (h : processFile cfg fi s3 = .error s3x) :
    processFiles cfg (fi :: rest) none s e s3 = .error (s, e, s3x) := by
  conv_lhs => unfold processFiles
  simp [h]

/-- One iteration of the file loop: the file copied, `success_count += 1`. -/
theorem processFiles_cons_true (cfg : Config) (fi : FileItem) (rest : List FileItem)
    (s e : Nat) (s3 s3x : S3State) (h : processFile cfg fi s3 = .ok (true, s3x)) :
    processFiles cfg (fi :: rest) none s e s3 = processFiles cfg rest none (s + 1) e s3x := by
  conv_lhs => unfold processFiles
  simp [h]

/-- One iteration of the file loop: the copy failed and was logged,
`error_count += 1`. -/
theorem processFiles_cons_false (cfg : Config) (fi : FileItem) (rest : List FileItem)
    (s e : Nat) (s3 s3x : S3State) (h : processFile cfg fi s3 = .ok (false, s3x)) :
    processFiles cfg (fi :: rest) none s e s3 = processFiles cfg rest none s (e + 1) s3x := by
  conv_lhs => unfold processFiles
  simp [h]

/-- The file loop, when no per-file handler raises and the iteration itself
does not raise, completes normally: one success per succeeding file, one error
per failing file, in any mix. -/
theorem processFiles_ok (cfg : Config) (files : List FileItem)
    (h : ∀ fi ∈ files, fi.logErrorRaises = false) :
    ∀ (s e : Nat) (s3 : S3State), ∃ s3', processFiles cfg files none s e s3
      = .ok (s + files.countP (fun fi => !(fileFails fi)), e + failCount files, s3') := by
  induction files with
  | nil =>
      intro s e s3
      exact ⟨s3, by simp [processFiles_nil, failCount]⟩
  | cons fi rest ih =>
      intro s e s3
      have hfi := h fi (by simp)
      have hrest : ∀ x ∈ rest, x.logErrorRaises = false := fun x hx => h x (by simp [hx])
      obtain ⟨s31, h1⟩ := processFile_of_logOk cfg fi s3 hfi
      cases hf : fileFails fi with
      | true =>
          rw [hf] at h1
          obtain ⟨s3', h2⟩ := ih hrest s (e + 1) s31
          refine ⟨s3', ?_⟩
          have e1 : (fi :: rest).countP (fun x => !(fileFails x))
              = rest.countP (fun x => !(fileFails x)) := by
            simp [List.countP_cons, hf]
          have e2 : failCount (fi :: rest) = failCount rest + 1 := by
            simp [failCount, List.countP_cons, hf]
          rw [processFiles_cons_false cfg fi rest s e s3 s31 (by simpa using h1), h2,
            e1, e2]
          have h3 : e + 1 + failCount rest = e + (failCount rest + 1) := by omega
          rw [h3]
      | false =>
          rw [hf] at h1
          obtain ⟨s3', h2⟩ := ih hrest (s + 1) e s31
          refine ⟨s3', ?_⟩
          have e1 : (fi :: rest).countP (fun x => !(fileFails x))
              = rest.countP (fun x => !(fileFails x)) + 1 := by
            simp [List.countP_cons, hf]
          have e2 : failCount (fi :: rest) = failCount rest := by
            simp [failCount, List.countP_cons, hf]
          rw [processFiles_cons_true cfg fi rest s e s3 s31 (by simpa using h1), h2,
            e1, e2]
          have h3 : s + 1 + rest.countP (fun x => !(fileFails x))
              = s + (rest.countP (fun x => !(fileFails x)) + 1) := by omega
          rw [h3]

/-- C2: a folder whose resolution/listing fails yields exactly `(0, 1)` — the
exception is absorbed, not propagated — and the destination receives no writes
(and no write attempts) for that subtree. -/
theorem copy_folder_resolve_failure (cfg : Config) (files : List FileItem)
    (ft : Option Nat) (subs : SubForest) (st : Option Nat) (s3 : S3State) :
    copyFolder cfg (.mk false files ft subs st) s3 = ((0, 1), s3) := rfl

/-- C3: a folder with `N` files and no subfolders, of which `k` fail at the
fetch/write step, returns `(N - k, k)`: each failure adds one error without
stopping the loop, each success adds one success. -/
theorem copy_folder_flat_folder (cfg : Config) (files : List FileItem) (s3 : S3State)
    (h : ∀ fi ∈ files, fi.logErrorRaises = false) :
    ∃ s3', copyFolder cfg (.mk true files none .nil none) s3
        = ((files.length - failCount files, failCount files), s3')
      ∧ failCount files ≤ files.length := by
  obtain ⟨s3', hp⟩ := processFiles_ok cfg files h 0 0 s3
  have hsum := okCount_add_failCount files
  refine ⟨s3', ?_, by omega⟩
  have hbody : copyFolderBody cfg (.mk true files none .nil none) s3
      = .ok (0 + files.countP (fun x => !(fileFails x)), 0 + failCount files, s3') := by
    unfold copyFolderBody
    rw [hp]
    rfl
  unfold copyFolder
  rw [hbody]
  have habs : absorb (.ok (0 + files.countP (fun x => !(fileFails x)),
      0 + failCount files, s3'))
      = ((0 + files.countP (fun x => !(fileFails x)), 0 + failCount files), s3') := rfl
  rw [habs]
  have h1 : 0 + files.countP (fun x => !(fileFails x))
      = files.length - failCount files := by omega
  have h2 : 0 + failCount files = failCount files := by omega
  rw [h1, h2]

theorem copy_folder_flat_folder_witness :
    ∃ s3', copyFolder cfg0
        (.mk true [fileOk "/sites/team/a.txt".toList, fileFetchFail "/sites/team/b.txt".toList]
          none .nil none) emptyS3
      = ((1, 1), s3') ∧ (1 : Nat) ≤ 2 := by
  obtain ⟨s3', h1, h2⟩ := copy_folder_flat_folder cfg0
    [fileOk "/sites/team/a.txt".toList, fileFetchFail "/sites/team/b.txt".toList]
    emptyS3 (by decide)
  exact ⟨s3', h1, h2⟩

/-- C8 (counterexample to the claim as stated): an invocation whose fetch step
raises performs zero write attempts at the destination, not exactly one. -/
theorem copy_one_exactly_one_attempt_cex :
    processFile cfg0 (fileFetchFail "/sites/team/a.txt".toList) emptyS3
        = .ok (false, emptyS3) ∧
      (fileFinalS3 (processFile cfg0 (fileFetchFail "/sites/team/a.txt".toList) emptyS3)).attempts.length
        = 0 :=
  ⟨rfl, rfl⟩

/-- C8 (amended): each per-file invocation performs at most one write attempt
— exactly one when the fetch succeeds, none when it raises — with no retry;
a successful put fully replaces any existing object under the key; any failure
at the fetch or write step is reported as an error (when its logging
succeeds), otherwise the file is reported as a success. -/
theorem copy_one_amended (cfg : Config) (fi : FileItem) (s3 : S3State) :
    (fileFinalS3 (processFile cfg fi s3)).attempts
      = s3.attempts ++ (match fi.fetch with
          | .ok c => [(s3Key cfg fi.serverRelativeUrl, c)]
          | .raise => []) ∧
    (∀ c, fi.fetch = .ok c → fi.putRaises = false →
      processFile cfg fi s3
        = .ok (true, ⟨(s3Key cfg fi.serverRelativeUrl, c) :: s3.store,
            s3.attempts ++ [(s3Key cfg fi.serverRelativeUrl, c)]⟩) ∧
      lookupStore ((s3Key cfg fi.serverRelativeUrl, c) :: s3.store)
          (s3Key cfg fi.serverRelativeUrl) = some c) ∧
    (fileFails fi = true → fi.logErrorRaises = false →
      ∃ s3', processFile cfg fi s3 = .ok (false, s3')) := by
  refine ⟨?_, ?_, ?_⟩
  · cases hf : fi.fetch with
    | raise =>
        cases hl : fi.logErrorRaises <;> simp [processFile, fileFinalS3, hf, hl]
    | ok c =>
        cases hp : fi.putRaises <;> cases hl : fi.logErrorRaises <;>
          simp [processFile, fileFinalS3, hf, hp, hl]
  · intro c hc hp
    refine ⟨by simp [processFile, hc, hp], ?_⟩
    simp [lookupStore]
  · intro hfail hlog
    obtain ⟨s3', h1⟩ := processFile_of_logOk cfg fi s3 hlog
    rw [hfail] at h1
    exact ⟨s3', by simpa using h1⟩

theorem copy_one_amended_witness :
    (processFile cfg0 (fileOk "/sites/team/a.txt".toList) emptyS3
        = .ok (true, ⟨[(s3Key cfg0 "/sites/team/a.txt".toList, [1, 2])],
            [(s3Key cfg0 "/sites/team/a.txt".toList, [1, 2])]⟩) ∧
      lookupStore [(s3Key cfg0 "/sites/team/a.txt".toList, [1, 2])]
          (s3Key cfg0 "/sites/team/a.txt".toList) = some [1, 2]) ∧
    (∃ s3', processFile cfg0 (filePutFail "/sites/team/b.txt".toList) emptyS3
        = .ok (false, s3')) :=
  ⟨(copy_one_amended cfg0 (fileOk "/sites/team/a.txt".toList) emptyS3).2.1 [1, 2] rfl rfl,
   (copy_one_amended cfg0 (filePutFail "/sites/team/b.txt".toList) emptyS3).2.2 rfl rfl⟩

/-- C9: whatever the collaborators do — resolution failing, fetches, puts or
per-file error logging raising, file or subfolder iteration raising —
`copy_folder` returns normally with a pair of natural numbers: any exception
reaching its outer handler is absorbed into the error count. -/
theorem copy_folder_no_exception (cfg : Config) (f : SPFolder) (s3 : S3State) :
    (∃ s e s3', copyFolder cfg f s3 = ((s, e), s3')) ∧
    (∀ s e s3', copyFolderBody cfg f s3 = .error (s, e, s3') →
      copyFolder cfg f s3 = ((s, e + 1), s3')) := by
  constructor
  · cases hb : copyFolderBody cfg f s3 with
    | ok r =>
        obtain ⟨a, b, c⟩ := r
        exact ⟨a, b, c, by unfold copyFolder; rw [hb]; rfl⟩
    | error r =>
        obtain ⟨a, b, c⟩ := r
        exact ⟨a, b + 1, c, by unfold copyFolder; rw [hb]; rfl⟩
  · intro s e s3' hb
    unfold copyFolder
    rw [hb]
    rfl

theorem copy_folder_no_exception_witness :
    copyFolder cfg0 (.mk false [] none .nil none) emptyS3 = ((0, 1), emptyS3) :=
  (copy_folder_no_exception cfg0 (.mk false [] none .nil none) emptyS3).2 0 0 emptyS3 rfl

/-- The subfolder loop on an exhausted listing. -/
theorem processSubs_nil (cfg : Config) (s e : Nat) (s3 : S3State) :
    processSubs cfg .nil none s e s3 = .ok (s, e, s3) := rfl

/-- One iteration of the subfolder loop: a reserved name is skipped. -/
theorem processSubs_cons_skip (cfg : Config) (name : Str) (sub : SPFolder)
    (rest : SubForest) (s e : Nat) (s3 : S3State) (hn : name ∈ skipNames) :
    processSubs cfg (.cons name sub rest) none s e s3
      = processSubs cfg rest none s e s3 := by
  conv_lhs => unfold processSubs
  simp [hn]

/-- One iteration of the subfolder loop: an ordinary subfolder is recursed
into and its counts merged. -/
theorem processSubs_cons_go (cfg : Config) (name : Str) (sub : SPFolder)
    (rest : SubForest) (s e : Nat) (s3 : S3State) (s' e' : Nat) (s3' : S3State)
    (hn : name ∉ skipNames)
    (habs : absorb (copyFolderBody cfg sub s3) = ((s', e'), s3')) :
    processSubs cfg (.cons name sub rest) none s e s3
      = processSubs cfg rest none (s + s') (e + e') s3' := by
  conv_lhs => unfold processSubs
  simp [hn, habs, merge]

/-- Like `processSubs_cons_skip`, under a live truncation countdown. -/
theorem processSubs_cons_skip_some (cfg : Config) (name : Str) (sub : SPFolder)
    (rest : SubForest) (n : Nat) (s e : Nat) (s3 : S3State) (hn : name ∈ skipNames) :
    processSubs cfg (.cons name sub rest) (some (n + 1)) s e s3
      = processSubs cfg rest (some n) s e s3 := by
  conv_lhs => unfold processSubs
  simp [hn]

/-- Like `processSubs_cons_go`, under a live truncation countdown. -/
theorem processSubs_cons_go_some (cfg : Config) (name : Str) (sub : SPFolder)
    (rest : SubForest) (n : Nat) (s e : Nat) (s3 : S3State) (s' e' : Nat) (s3' : S3State)
    (hn : name ∉ skipNames)
    (habs : absorb (copyFolderBody cfg sub s3) = ((s', e'), s3')) :
    processSubs cfg (.cons name sub rest) (some (n + 1)) s e s3
      = processSubs cfg rest (some n) (s + s') (e + e') s3' := by
  conv_lhs => unfold processSubs
  simp [hn, habs, merge]

/-- Filtering reserved names is idempotent. -/
theorem keepSubs_idem : ∀ subs : SubForest, keepSubs (keepSubs subs) = keepSubs subs
  | .nil => rfl
  | .cons name sub rest => by
      by_cases hn : name ∈ skipNames
      · simp [keepSubs, hn, keepSubs_idem rest]
      · simp [keepSubs, hn, keepSubs_idem rest]

/-- An uninterrupted subfolder loop is the fold of `copy_folder` over exactly
the non-reserved entries, in order. -/
theorem processSubs_eq_foldSubs (cfg : Config) :
    ∀ (subs : SubForest) (s e : Nat) (s3 : S3State),
      processSubs cfg subs none s e s3
        = .ok ((foldSubs cfg (keepSubs subs) ((s, e), s3)).1.1,
               (foldSubs cfg (keepSubs subs) ((s, e), s3)).1.2,
               (foldSubs cfg (keepSubs subs) ((s, e), s3)).2)
  | .nil, s, e, s3 => by
      rw [processSubs_nil]
      rfl
  | .cons name sub rest, s, e, s3 => by
      by_cases hn : name ∈ skipNames
      · rw [processSubs_cons_skip cfg name sub rest s e s3 hn,
          processSubs_eq_foldSubs cfg rest s e s3]
        have hk : keepSubs (.cons name sub rest) = keepSubs rest := by
          conv_lhs => unfold keepSubs
          simp [hn]
        rw [hk]
      · rcases habs : absorb (copyFolderBody cfg sub s3) with ⟨⟨s', e'⟩, s3'⟩
        rw [processSubs_cons_go cfg name sub rest s e s3 s' e' s3' hn habs,
          processSubs_eq_foldSubs cfg rest (s + s') (e + e') s3']
        have hk : keepSubs (.cons name sub rest) = .cons name sub (keepSubs rest) := by
          conv_lhs => unfold keepSubs
          simp [hn]
        rw [hk]
        have hf : foldSubs cfg (.cons name sub (keepSubs rest)) ((s, e), s3)
            = foldSubs cfg (keepSubs rest) ((s + s', e + e'), s3') := by
          conv_lhs => unfold foldSubs
          simp [copyFolder, habs, merge]
        rw [hf]

/-- C6: subfolders named `.`, `..` or `Forms` are never recursed into and
contribute nothing — the walk of a folder equals the fold of `copy_folder`
over exactly its non-reserved subfolders, and deleting the reserved entries
from the listing leaves the result unchanged. -/
theorem copy_folder_skips_reserved (cfg : Config) (files : List FileItem)
    (subs : SubForest) (s3 : S3State) (s e : Nat) (s31 : S3State)
    (h : processFiles cfg files none 0 0 s3 = .ok (s, e, s31)) :
    copyFolder cfg (.mk true files none subs none) s3
      = foldSubs cfg (keepSubs subs) ((s, e), s31) ∧
    copyFolder cfg (.mk true files none (keepSubs subs) none) s3
      = copyFolder cfg (.mk true files none subs none) s3 := by
  have h1 : ∀ t : SubForest,
      copyFolder cfg (.mk true files none t none) s3
        = foldSubs cfg (keepSubs t) ((s, e), s31) := by
    intro t
    have hbody : copyFolderBody cfg (.mk true files none t none) s3
        = .ok ((foldSubs cfg (keepSubs t) ((s, e), s31)).1.1,
               (foldSubs cfg (keepSubs t) ((s, e), s31)).1.2,
               (foldSubs cfg (keepSubs t) ((s, e), s31)).2) := by
      unfold copyFolderBody
      rw [h]
      exact processSubs_eq_foldSubs cfg t s e s31
    unfold copyFolder
    rw [hbody]
    rfl
  refine ⟨h1 subs, ?_⟩
  rw [h1 subs, h1 (keepSubs subs), keepSubs_idem]

theorem copy_folder_skips_reserved_witness :
    copyFolder cfg0 (.mk true [] none formsSubs none) emptyS3
      = foldSubs cfg0 (keepSubs formsSubs) ((0, 0), emptyS3) ∧
    copyFolder cfg0 (.mk true [] none (keepSubs formsSubs) none) emptyS3
      = copyFolder cfg0 (.mk true [] none formsSubs none) emptyS3 :=
  copy_folder_skips_reserved cfg0 [] formsSubs emptyS3 0 0 emptyS3 rfl

/-- If the file loop runs clean over a first segment and then hits a file
whose failure handling itself raises, the whole loop raises with the counts
of the first segment; the trailing files are never examined. -/
theorem processFiles_append_error (cfg : Config) (bad : FileItem) (fs2 : List FileItem)
    (hfail : fileFails bad = true) (hlog : bad.logErrorRaises = true) :
    ∀ (fs1 : List FileItem) (s e : Nat) (s3 : S3State) (s1 e1 : Nat) (s31 : S3State),
      processFiles cfg fs1 none s e s3 = .ok (s1, e1, s31) →
      ∃ s32, processFiles cfg (fs1 ++ bad :: fs2) none s e s3 = .error (s1, e1, s32) := by
  intro fs1
  induction fs1 with
  | nil =>
      intro s e s3 s1 e1 s31 h
      rw [processFiles_nil] at h
      obtain ⟨h1, h2, _⟩ : s = s1 ∧ e = e1 ∧ s3 = s31 := by simpa using h
      obtain ⟨s32, hbad⟩ := processFile_error_of cfg bad s3 hfail hlog
      refine ⟨s32, ?_⟩
      rw [List.nil_append, processFiles_cons_err cfg bad fs2 s e s3 s32 hbad, h1, h2]
  | cons fi rest ih =>
      intro s e s3 s1 e1 s31 h
      cases hpf : processFile cfg fi s3 with
      | error s3x =>
          rw [processFiles_cons_err cfg fi rest s e s3 s3x hpf] at h
          simp at h
      | ok p =>
          obtain ⟨b, s3x⟩ := p
          cases b with
          | true =>
              rw [processFiles_cons_true cfg fi rest s e s3 s3x hpf] at h
              obtain ⟨s32, h2⟩ := ih (s + 1) e s3x s1 e1 s31 h
              refine ⟨s32, ?_⟩
              rw [List.cons_append,
                processFiles_cons_true cfg fi (rest ++ bad :: fs2) s e s3 s3x hpf]
              exact h2
          | false =>
              rw [processFiles_cons_false cfg fi rest s e s3 s3x hpf] at h
              obtain ⟨s32, h2⟩ := ih s (e + 1) s3x s1 e1 s31 h
              refine ⟨s32, ?_⟩
              rw [List.cons_append,
                processFiles_cons_false cfg fi (rest ++ bad :: fs2) s e s3 s3x hpf]
              exact h2

/-- If the subfolder iteration raises after `n` entries, the loop raises with
whatever the first `n` entries accumulated. -/
theorem processSubs_trunc (cfg : Config) :
    ∀ (subs : SubForest) (n : Nat) (s e : Nat) (s3 : S3State) (r : Nat × Nat × S3State),
      n ≤ lenSubs subs →
      processSubs cfg (takeSubs n subs) none s e s3 = .ok r →
      processSubs cfg subs (some n) s e s3 = .error r
  | subs, 0, s, e, s3, r, _, h => by
      have h0 : takeSubs 0 subs = .nil := by cases subs <;> rfl
      rw [h0, processSubs_nil] at h
      have hr : (s, e, s3) = r := by simpa using h
      rw [← hr]
      cases subs <;> rfl
  | subs, n + 1, s, e, s3, r, hle, h => by
      cases subs with
      | nil => simp [lenSubs] at hle
      | cons name sub rest =>
          have ht : takeSubs (n + 1) (SubForest.cons name sub rest)
              = .cons name sub (takeSubs n rest) := rfl
          rw [ht] at h
          have hle' : n ≤ lenSubs rest := by
            simp [lenSubs] at hle
            omega
          by_cases hn : name ∈ skipNames
          · rw [processSubs_cons_skip cfg name sub (takeSubs n rest) s e s3 hn] at h
            rw [processSubs_cons_skip_some cfg name sub rest n s e s3 hn]
            exact processSubs_trunc cfg rest n s e s3 r hle' h
          · rcases habs : absorb (copyFolderBody cfg sub s3) with ⟨⟨s', e'⟩, s3'⟩
            rw [processSubs_cons_go cfg name sub (takeSubs n rest) s e s3 s' e' s3'
              hn habs] at h
            rw [processSubs_cons_go_some cfg name sub rest n s e s3 s' e' s3' hn habs]
            exact processSubs_trunc cfg rest n (s + s') (e + e') s3' r hle' h

/-- C10: when an exception escapes the per-file handling, or the subfolder
iteration raises, after part of a folder was already processed, `copy_folder`
returns the counts accumulated so far plus exactly one extra error, and the
remaining files and subfolders of that folder are silently skipped — partial
per-folder progress survives in the result. -/
theorem copy_folder_partial_progress (cfg : Config) :
    (∀ (fs1 : List FileItem) (bad : FileItem) (fs2 : List FileItem) (subs : SubForest)
        (st : Option Nat) (s e : Nat) (s3 s31 : S3State),
      fileFails bad = true → bad.logErrorRaises = true →
      processFiles cfg fs1 none 0 0 s3 = .ok (s, e, s31) →
      ∃ s32, copyFolder cfg (.mk true (fs1 ++ bad :: fs2) none subs st) s3
        = ((s, e + 1), s32)) ∧
    (∀ (subs : SubForest) (n : Nat) (s e : Nat) (s3 s31 : S3State),
      n ≤ lenSubs subs →
      processSubs cfg (takeSubs n subs) none 0 0 s3 = .ok (s, e, s31) →
      copyFolder cfg (.mk true [] none subs (some n)) s3 = ((s, e + 1), s31)) := by
  constructor
  · intro fs1 bad fs2 subs st s e s3 s31 hfail hlog hfs
    obtain ⟨s32, h⟩ := processFiles_append_error cfg bad fs2 hfail hlog fs1 0 0 s3 s e s31 hfs
    refine ⟨s32, ?_⟩
    unfold copyFolder copyFolderBody
    rw [h]
    rfl
  · intro subs n s e s3 s31 hle hps
    have h := processSubs_trunc cfg subs n 0 0 s3 (s, e, s31) hle hps
    unfold copyFolder copyFolderBody
    rw [processFiles_nil]
    show absorb (processSubs cfg subs (some n) 0 0 s3) = ((s, e + 1), s31)
    rw [h]
    rfl

theorem copy_folder_partial_progress_witness :
    (∃ s32, copyFolder cfg0
        (.mk true [fileOk "/a".toList, fileLogFail "/b".toList, fileOk "/c".toList]
          none .nil none) emptyS3
      = ((1, 1), s32)) ∧
    copyFolder cfg0 (.mk true [] none oneSub (some 1)) emptyS3 = ((0, 1), emptyS3) :=
  ⟨(copy_folder_partial_progress cfg0).1 [fileOk "/a".toList] (fileLogFail "/b".toList)
      [fileOk "/c".toList] .nil none 1 0 emptyS3
      ⟨[("backup/a".toList, [1, 2])], [("backup/a".toList, [1, 2])]⟩ rfl rfl rfl,
   (copy_folder_partial_progress cfg0).2 oneSub 1 0 0 emptyS3 emptyS3 (by decide) rfl⟩

end SP2S3
